import Mathlib

/-!
# kvm-host: PCI configuration mechanism (`src/pci.h`)

A shallow embedding of the declarations of `src/pci.h`:

* `union pci_config_address`, the latched CONFIG_ADDRESS word and its bit-fields;
* the accessor macros `PCI_HDR_READ`, `PCI_HDR_WRITE` and `PCI_BAR_OFFSET`;
* `struct pci_dev` and the operations declared on it.

Machine words are natural numbers with explicit reduction modulo `2 ^ w`.
Memory is byte-addressed and little-endian, bit-fields are allocated from
the least significant bit upwards, as on the x86 host that the program
targets.
-/

namespace KvmHost

/-! ## Constants of `<linux/pci_regs.h>` (included at `pci.h:4`) -/

/-- Number of bytes of the legacy configuration space, `PCI_CFG_SPACE_SIZE`. -/
def PCI_CFG_SPACE_SIZE : Nat := 256

/-- Offset of the 16-bit Status register, `PCI_STATUS`. -/
def PCI_STATUS : Nat := 0x06

/-- Offset of the first Base Address Register, `PCI_BASE_ADDRESS_0`. -/
def PCI_BASE_ADDRESS_0 : Nat := 0x10

/-- Layout flag `PCI_BASE_ADDRESS_SPACE_IO` (bit 0 of a BAR). -/
def PCI_BASE_ADDRESS_SPACE_IO : Nat := 0x01

/-- Position of the `k`-th bit-field of a storage unit whose fields have the
widths `ws` in declaration order: the first field starts at bit 0 and each
field starts where the previous one ends. -/
def bitfield_pos (ws : List Nat) (k : Nat) : Nat := (ws.take k).sum

/-- Declared width of the `k`-th bit-field. -/
def bitfield_width (ws : List Nat) (k : Nat) : Nat := ws.getD k 0

/-- Value of the `k`-th bit-field of the storage unit `word`. -/
def bitfield_get (ws : List Nat) (word k : Nat) : Nat :=
  (word >>> bitfield_pos ws k) % 2 ^ bitfield_width ws k

/-- The union: one 32-bit storage unit, seen either as `value` or through
the seven bit-fields. -/
structure pci_config_address where
  value : Nat
deriving DecidableEq, Repr

namespace pci_config_address

/-- Widths of `reg_offset`, `reg_num`, `func_num`, `dev_num`, `bus_num`,
`reserved`, `enable_bit`, in declaration order (`pci.h:11-17`). -/
def widths : List Nat := [2, 6, 3, 5, 8, 7, 1]

/-- Assignment to the member `uint32_t value`. -/
def write_value (v : Nat) : pci_config_address := ⟨v % 2 ^ 32⟩

/-- Member `unsigned reg_offset : 2`. -/
def reg_offset (a : pci_config_address) : Nat := bitfield_get widths a.value 0

/-- Member `unsigned reg_num : 6`. -/
def reg_num (a : pci_config_address) : Nat := bitfield_get widths a.value 1

/-- Member `unsigned func_num : 3`. -/
def func_num (a : pci_config_address) : Nat := bitfield_get widths a.value 2

/-- Member `unsigned dev_num : 5`. -/
def dev_num (a : pci_config_address) : Nat := bitfield_get widths a.value 3

/-- Member `unsigned bus_num : 8`. -/
def bus_num (a : pci_config_address) : Nat := bitfield_get widths a.value 4

/-- Member `unsigned reserved : 7`. -/
def reserved (a : pci_config_address) : Nat := bitfield_get widths a.value 5

/-- Member `unsigned enable_bit : 1`. -/
def enable_bit (a : pci_config_address) : Nat := bitfield_get widths a.value 6

/-- Byte index into the selected device's configuration space that the
latched address designates: `reg_num * 4 + reg_offset`. -/
def cfg_index (a : pci_config_address) : Nat := a.reg_num * 4 + a.reg_offset

end pci_config_address

/-! ## Accessor macros (`pci.h:22-26`) -/

/-- Byte-addressed memory of the host process. -/
abbrev Mem := Nat → Fin 256

/-- Width of the host's `uintptr_t` in bits (x86-64). -/
def UINTPTR_BITS : Nat := 64

/-- Little-endian load of `n` consecutive bytes starting at `addr`. -/
def load_le (m : Mem) (addr : Nat) : Nat → Nat
  | 0 => 0
  | n + 1 => (m addr).val + 256 * load_le m (addr + 1) n

/-- Little-endian store of the `n` low bytes of `v` starting at `addr`. -/
def store_le (m : Mem) (addr v : Nat) : Nat → Mem
  | 0 => m
  | n + 1 =>
    store_le (fun a => if a = addr then ⟨v % 256, Nat.mod_lt _ (by decide)⟩ else m a)
      (addr + 1) (v / 256) n

/-- Address computed by `(uintptr_t) hdr + offset`. -/
def hdr_addr (hdr offset : Nat) : Nat := (hdr + offset) % 2 ^ UINTPTR_BITS

/-- Macro `PCI_HDR_READ(hdr, offset, width)`:
`*((uint##width##_t *) ((uintptr_t) hdr + offset))`.

The load is taken from one coherent byte memory. That describes a read of
bytes last written through the same width and a read of bytes that no macro
write touched. The macro reaches `uint8_t cfg_space[]` through a
`uint16_t *` or `uint32_t *`, so what a read returns for bytes last written
through another width is not fixed by the C abstract machine; the
development states nothing about such reads. -/
def PCI_HDR_READ (m : Mem) (hdr offset width : Nat) : Nat :=
  load_le m (hdr_addr hdr offset) (width / 8)

/-- Macro `PCI_HDR_WRITE(hdr, offset, value, width)`:
`((uint##width##_t *) ((uintptr_t) hdr + offset))[0] = value`; the value is
converted to `uint##width##_t` by the assignment. -/
def PCI_HDR_WRITE (m : Mem) (hdr offset value width : Nat) : Mem :=
  store_le m (hdr_addr hdr offset) (value % 2 ^ width) (width / 8)

/-- Macro `PCI_BAR_OFFSET(bar)`: `PCI_BASE_ADDRESS_0 + ((bar) << 2)`. -/
def PCI_BAR_OFFSET (bar : Nat) : Nat := PCI_BASE_ADDRESS_0 + (bar <<< 2)

/-- An address belongs to the 256-byte store `cfg_space` that `hdr` points at. -/
def in_store (hdr a : Nat) : Prop := hdr ≤ a ∧ a < hdr + PCI_CFG_SPACE_SIZE

instance (hdr a : Nat) : Decidable (in_store hdr a) := by
  unfold in_store; exact inferInstance

/-! ## `struct pci_dev` (`pci.h:28-39`) and the operations declared on it -/

/-- Modelled from the spec: `struct dev` of `bus.h`, which is not part of the
sources at hand. A registered address range `[base, base + len)` together
with the callback that serves it (spec §2 "Bus", §6 `register_range`). -/
structure dev where
  base : Nat
  len : Nat
  do_io : Nat
deriving DecidableEq, Repr

/-- Modelled from the spec: `struct bus` of `bus.h`, which is not part of the
sources at hand; "a mapping from address range to handler" (spec §2). -/
abbrev bus := List dev

/-- State reached through a `struct pci_dev *`: the memory that holds
`cfg_space`, the pointer `hdr` to its first byte, the three six-entry BAR
tables, the per-BAR address-space devices and the two buses the device
registers its regions on. -/
structure pci_dev where
  mem : Mem
  hdr : Nat
  bar_size : Nat → Nat
  bar_active : Nat → Bool
  bar_is_io_space : Nat → Bool
  space_dev : Nat → dev
  io_bus : bus
  mmio_bus : bus

/-- The `struct pci` of `pci.h:41-47`: the latched configuration address,
the configuration-space bus and the three port devices. -/
structure pci where
  pci_addr : pci_config_address
  pci_bus : bus
  pci_bus_dev : dev
  pci_addr_dev : dev
  pci_mmio_dev : dev

/-- Bitwise complement of a `uint16_t`, converted back to `uint16_t`. -/
def not16 (x : Nat) : Nat := (2 ^ 16 - 1) ^^^ (x % 2 ^ 16)

/-- 32-bit BAR register of index `bar` as stored in configuration space. -/
def bar_reg (d : pci_dev) (bar : Nat) : Nat :=
  PCI_HDR_READ d.mem d.hdr (PCI_BAR_OFFSET bar) 32

/-- 16-bit Status register as stored in configuration space. -/
def status_reg (d : pci_dev) : Nat := PCI_HDR_READ d.mem d.hdr PCI_STATUS 16

/-- Modelled from the spec: the body of `pci_set_bar` (declared at
`pci.h:78-82`, defined in `pci.c`, which is missing). Spec §4.2 `configure`
and the header's doc comment: writes the layout bitmask (base address 0) into
the BAR register, records `bar_size`, records `is_io_space` as the I/O bit of
the layout, and prepares the address-space device with the callback. It
"does not yet activate a bus mapping ... BARs power up unmapped": the BAR is
left inactive and no bus is touched. -/
def pci_set_bar (d : pci_dev) (bar bar_size layout do_io : Nat) : pci_dev :=
  { d with
    mem := PCI_HDR_WRITE d.mem d.hdr (PCI_BAR_OFFSET bar) layout 32
    bar_size := Function.update d.bar_size bar (bar_size % 2 ^ 32)
    bar_active := Function.update d.bar_active bar false
    bar_is_io_space :=
      Function.update d.bar_is_io_space bar
        (decide (layout &&& PCI_BASE_ADDRESS_SPACE_IO ≠ 0))
    space_dev := Function.update d.space_dev bar ⟨0, bar_size % 2 ^ 32, do_io⟩ }

/-- Modelled from the spec: the body of `pci_set_status` (declared at
`pci.h:83`, defined in `pci.c`, which is missing). Spec §4.1: a status write
clears the bits written as 1 and leaves the others, "not a plain
overwrite". -/
def pci_set_status (d : pci_dev) (status : Nat) : pci_dev :=
  { d with
    mem := PCI_HDR_WRITE d.mem d.hdr PCI_STATUS (status_reg d &&& not16 status) 16 }

/-- A device whose configuration space, at address `0x1000`, is all zero and
whose BAR tables are empty. -/
def blank_dev : pci_dev where
  mem := fun _ => 0
  hdr := 0x1000
  bar_size := fun _ => 0
  bar_active := fun _ => false
  bar_is_io_space := fun _ => false
  space_dev := fun _ => ⟨0, 0, 0⟩
  io_bus := []
  mmio_bus := []

/-- The blank device with the Status register preset to `st`. -/
def dev_with_status (st : Nat) : pci_dev :=
  { blank_dev with mem := PCI_HDR_WRITE blank_dev.mem blank_dev.hdr PCI_STATUS st 16 }

/-! ## Auxiliary facts on bit-fields -/

theorem and_mask_eq_mod (x n : Nat) : x &&& (2 ^ n - 1) = x % 2 ^ n :=
  Nat.and_pow_two_sub_one_eq_mod x n

theorem or_shift_eq_add (a b i : Nat) (hb : b < 2 ^ i) : b ||| a <<< i = b + 2 ^ i * a := by
  rw [Nat.or_comm, Nat.shiftLeft_eq, Nat.mul_comm a, ← Nat.mul_add_lt_is_or hb a, Nat.add_comm]

theorem field_values (v : Nat) :
    let a := pci_config_address.write_value v
    a.reg_offset = v % 2 ^ 32 % 4 ∧ a.reg_num = v % 2 ^ 32 / 4 % 64 ∧
    a.func_num = v % 2 ^ 32 / 256 % 8 ∧ a.dev_num = v % 2 ^ 32 / 2048 % 32 ∧
    a.bus_num = v % 2 ^ 32 / 65536 % 256 ∧ a.reserved = v % 2 ^ 32 / 16777216 % 128 ∧
    a.enable_bit = v % 2 ^ 32 / 2147483648 % 2 := by
  simp [pci_config_address.write_value, pci_config_address.reg_offset,
    pci_config_address.reg_num, pci_config_address.func_num, pci_config_address.dev_num,
    pci_config_address.bus_num, pci_config_address.reserved, pci_config_address.enable_bit,
    pci_config_address.widths, bitfield_get, bitfield_pos, bitfield_width,
    Nat.shiftRight_eq_div_pow]

theorem and_lits (x : Nat) :
    x &&& 0x3 = x % 4 ∧ x &&& 0x7 = x % 8 ∧ x &&& 0x1F = x % 32 ∧ x &&& 0x3F = x % 64 ∧
    x &&& 0x7F = x % 128 ∧ x &&& 0xFF = x % 256 :=
  ⟨and_mask_eq_mod x 2, and_mask_eq_mod x 3, and_mask_eq_mod x 5, and_mask_eq_mod x 6,
    and_mask_eq_mod x 7, and_mask_eq_mod x 8⟩

theorem pack_eq_add (f0 f1 f2 f3 f4 f5 f6 : Nat) (h0 : f0 < 4) (h1 : f1 < 64) (h2 : f2 < 8)
    (h3 : f3 < 32) (h4 : f4 < 256) (h5 : f5 < 128) :
    f0 ||| f1 <<< 2 ||| f2 <<< 8 ||| f3 <<< 11 ||| f4 <<< 16 ||| f5 <<< 24 ||| f6 <<< 31 =
      f0 + 4 * f1 + 256 * f2 + 2048 * f3 + 65536 * f4 + 16777216 * f5 + 2147483648 * f6 := by
  rw [or_shift_eq_add f1 f0 2 (by omega)]
  rw [or_shift_eq_add f2 _ 8 (by omega)]
  rw [or_shift_eq_add f3 _ 11 (by omega)]
  rw [or_shift_eq_add f4 _ 16 (by omega)]
  rw [or_shift_eq_add f5 _ 24 (by omega)]
  rw [or_shift_eq_add f6 _ 31 (by omega)]
  norm_num

/-! ## The latched configuration address -/

/-- C1: for every 32-bit value `v` stored in `pci_config_address.value`, the
seven bit-fields read back the bit slices `v & 0x3`, `(v >> 2) & 0x3F`,
`(v >> 8) & 0x7`, `(v >> 11) & 0x1F`, `(v >> 16) & 0xFF`, `(v >> 24) & 0x7F`
and `v >> 31`. -/
theorem config_address_decode (v : Nat) (hv : v < 2 ^ 32) :
    (pci_config_address.write_value v).reg_offset = v &&& 0x3 ∧
    (pci_config_address.write_value v).reg_num = (v >>> 2) &&& 0x3F ∧
    (pci_config_address.write_value v).func_num = (v >>> 8) &&& 0x7 ∧
    (pci_config_address.write_value v).dev_num = (v >>> 11) &&& 0x1F ∧
    (pci_config_address.write_value v).bus_num = (v >>> 16) &&& 0xFF ∧
    (pci_config_address.write_value v).reserved = (v >>> 24) &&& 0x7F ∧
    (pci_config_address.write_value v).enable_bit = v >>> 31 := by
  obtain ⟨h0, h1, h2, h3, h4, h5, h6⟩ := field_values v
  have hm : v % 2 ^ 32 = v := Nat.mod_eq_of_lt hv
  rw [hm] at h0 h1 h2 h3 h4 h5 h6
  simp only [Nat.shiftRight_eq_div_pow]
  obtain ⟨a3, -, -, -, -, -⟩ := and_lits v
  obtain ⟨-, -, -, a3F, -, -⟩ := and_lits (v / 2 ^ 2)
  obtain ⟨-, a7, -, -, -, -⟩ := and_lits (v / 2 ^ 8)
  obtain ⟨-, -, a1F, -, -, -⟩ := and_lits (v / 2 ^ 11)
  obtain ⟨-, -, -, -, -, aFF⟩ := and_lits (v / 2 ^ 16)
  obtain ⟨-, -, -, -, a7F, -⟩ := and_lits (v / 2 ^ 24)
  rw [a3, a3F, a7, a1F, aFF, a7F, h0, h1, h2, h3, h4, h5, h6]
  refine ⟨rfl, ?_, ?_, ?_, ?_, ?_, ?_⟩ <;> omega

/-- Witness of C1 at `v = 0x80000800`: enable 1, bus 0, device 1, function 0,
register 0, offset 0. -/
theorem config_address_decode_witness :
    (pci_config_address.write_value 0x80000800).enable_bit = 1 ∧
    (pci_config_address.write_value 0x80000800).bus_num = 0 ∧
    (pci_config_address.write_value 0x80000800).dev_num = 1 ∧
    (pci_config_address.write_value 0x80000800).func_num = 0 ∧
    (pci_config_address.write_value 0x80000800).reg_num = 0 ∧
    (pci_config_address.write_value 0x80000800).reg_offset = 0 := by
  obtain ⟨h0, h1, h2, h3, h4, -, h6⟩ := config_address_decode 0x80000800 (by decide)
  exact ⟨h6.trans (by decide), h4.trans (by decide), h3.trans (by decide),
    h2.trans (by decide), h1.trans (by decide), h0.trans (by decide)⟩

/-- C2: for every 32-bit latched value `v`, the configuration-space index
`reg_num * 4 + reg_offset` equals `v & 0xFF` and is below
`PCI_CFG_SPACE_SIZE = 256`. -/
theorem config_address_index_in_bounds (v : Nat) (hv : v < 2 ^ 32) :
    (pci_config_address.write_value v).cfg_index = v &&& 0xFF ∧
    (pci_config_address.write_value v).cfg_index < PCI_CFG_SPACE_SIZE ∧
    PCI_CFG_SPACE_SIZE = 256 := by
  obtain ⟨h0, h1, -⟩ := field_values v
  have hm : v % 2 ^ 32 = v := Nat.mod_eq_of_lt hv
  rw [hm] at h0 h1
  obtain ⟨-, -, -, -, -, aFF⟩ := and_lits v
  unfold pci_config_address.cfg_index PCI_CFG_SPACE_SIZE
  rw [aFF, h0, h1]
  omega

/-- Witness of C2 at `v = 0x8000FFFF`, whose low byte selects index 255. -/
theorem config_address_index_in_bounds_witness :
    (pci_config_address.write_value 0x8000FFFF).cfg_index = 255 ∧
    (pci_config_address.write_value 0x8000FFFF).cfg_index < PCI_CFG_SPACE_SIZE :=
  ⟨(config_address_index_in_bounds 0x8000FFFF (by decide)).1.trans (by decide),
    (config_address_index_in_bounds 0x8000FFFF (by decide)).2.1⟩

/-- C3: a 32-bit value `v` written to `pci_addr.value` is read back
unchanged; re-packing the seven decoded fields at the positions
0, 2, 8, 11, 16, 24, 31 gives `v` again, reserved bits included; the widths
2+6+3+5+8+7+1 tile the 32 bits without gap or overlap; and two 32-bit values
with the same seven fields are equal. -/
theorem config_address_roundtrip (v : Nat) (hv : v < 2 ^ 32) :
    (∀ p : pci, ({ p with pci_addr := pci_config_address.write_value v }).pci_addr.value = v) ∧
    ((pci_config_address.write_value v).reg_offset |||
      (pci_config_address.write_value v).reg_num <<< 2 |||
      (pci_config_address.write_value v).func_num <<< 8 |||
      (pci_config_address.write_value v).dev_num <<< 11 |||
      (pci_config_address.write_value v).bus_num <<< 16 |||
      (pci_config_address.write_value v).reserved <<< 24 |||
      (pci_config_address.write_value v).enable_bit <<< 31) = v ∧
    (bitfield_pos pci_config_address.widths 0 = 0 ∧
      (∀ k, k < 7 → bitfield_pos pci_config_address.widths (k + 1) =
        bitfield_pos pci_config_address.widths k +
          bitfield_width pci_config_address.widths k) ∧
      bitfield_pos pci_config_address.widths 7 = 32) ∧
    (∀ w, w < 2 ^ 32 →
      (pci_config_address.write_value w).reg_offset =
        (pci_config_address.write_value v).reg_offset →
      (pci_config_address.write_value w).reg_num =
        (pci_config_address.write_value v).reg_num →
      (pci_config_address.write_value w).func_num =
        (pci_config_address.write_value v).func_num →
      (pci_config_address.write_value w).dev_num =
        (pci_config_address.write_value v).dev_num →
      (pci_config_address.write_value w).bus_num =
        (pci_config_address.write_value v).bus_num →
      (pci_config_address.write_value w).reserved =
        (pci_config_address.write_value v).reserved →
      (pci_config_address.write_value w).enable_bit =
        (pci_config_address.write_value v).enable_bit →
      w = v) := by
  obtain ⟨h0, h1, h2, h3, h4, h5, h6⟩ := field_values v
  have hm : v % 2 ^ 32 = v := Nat.mod_eq_of_lt hv
  rw [hm] at h0 h1 h2 h3 h4 h5 h6
  refine ⟨fun _ => hm, ?_, ⟨by decide, by decide, by decide⟩, ?_⟩
  · rw [pack_eq_add _ _ _ _ _ _ _ (by omega) (by omega) (by omega) (by omega) (by omega)
      (by omega), h0, h1, h2, h3, h4, h5, h6]
    omega
  · intro w hw e0 e1 e2 e3 e4 e5 e6
    obtain ⟨g0, g1, g2, g3, g4, g5, g6⟩ := field_values w
    have hmw : w % 2 ^ 32 = w := Nat.mod_eq_of_lt hw
    rw [hmw] at g0 g1 g2 g3 g4 g5 g6
    rw [h0, g0] at e0
    rw [h1, g1] at e1
    rw [h2, g2] at e2
    rw [h3, g3] at e3
    rw [h4, g4] at e4
    rw [h5, g5] at e5
    rw [h6, g6] at e6
    omega

/-- Witness of C3 at `v = 0xFF123457`, a value with reserved bits set. -/
theorem config_address_roundtrip_witness :
    (∀ p : pci,
      ({ p with pci_addr := pci_config_address.write_value 0xFF123457 }).pci_addr.value =
        0xFF123457) ∧
    (pci_config_address.write_value 0xFF123457).reserved = 0x7F :=
  ⟨(config_address_roundtrip 0xFF123457 (by decide)).1, by decide⟩

/-! ## Memory accesses of the header macros -/

theorem store_le_outside (n : Nat) :
    ∀ (m : Mem) (addr v a : Nat), (a < addr ∨ addr + n ≤ a) → store_le m addr v n a = m a := by
  induction n with
  | zero => intro m addr v a _; rfl
  | succ n ih =>
    intro m addr v a h
    unfold store_le
    rw [ih _ _ _ _ (by omega)]
    have hne : a ≠ addr := by omega
    simp [hne]

theorem load_le_congr (n : Nat) :
    ∀ (m m2 : Mem) (addr : Nat), (∀ a, addr ≤ a → a < addr + n → m2 a = m a) →
      load_le m2 addr n = load_le m addr n := by
  induction n with
  | zero => intro m m2 addr _; rfl
  | succ n ih =>
    intro m m2 addr h
    unfold load_le
    rw [h addr (Nat.le_refl _) (by omega),
      ih m m2 (addr + 1) (fun a h1 h2 => h a (by omega) (by omega))]

theorem load_le_store_le (n : Nat) :
    ∀ (m : Mem) (addr v : Nat), load_le (store_le m addr v n) addr n = v % 256 ^ n := by
  induction n with
  | zero => intro m addr v; simp [load_le, Nat.mod_one]
  | succ n ih =>
    intro m addr v
    unfold load_le store_le
    rw [ih, store_le_outside n _ _ _ _ (Or.inl (Nat.lt_succ_self addr))]
    simp only [if_true]
    rw [Nat.pow_succ, Nat.mul_comm (256 ^ n) 256, Nat.mod_mul]

theorem load_le_store_le_disjoint (n k : Nat) (m : Mem) (addr addr2 v : Nat)
    (h : addr2 + k ≤ addr ∨ addr + n ≤ addr2) :
    load_le (store_le m addr v n) addr2 k = load_le m addr2 k :=
  load_le_congr k m _ addr2 (fun a h1 h2 => store_le_outside n m addr v a (by omega))

theorem load_le_lt (n : Nat) : ∀ (m : Mem) (addr : Nat), load_le m addr n < 256 ^ n := by
  induction n with
  | zero => intro m addr; simp [load_le]
  | succ n ih =>
    intro m addr
    unfold load_le
    have h1 := ih m (addr + 1)
    have h2 := (m addr).isLt
    rw [Nat.pow_succ]
    omega

theorem width_cases (w : Nat) (hw : w = 8 ∨ w = 16 ∨ w = 32) : 256 ^ (w / 8) = 2 ^ w := by
  rcases hw with h | h | h <;> subst h <;> norm_num

theorem hdr_read_write_same (m : Mem) (hdr o x w : Nat) (hw : w = 8 ∨ w = 16 ∨ w = 32) :
    PCI_HDR_READ (PCI_HDR_WRITE m hdr o x w) hdr o w = x % 2 ^ w := by
  unfold PCI_HDR_READ PCI_HDR_WRITE
  rw [load_le_store_le, width_cases w hw, Nat.mod_mod]

theorem hdr_addr_in_range (hdr o : Nat) (hh : hdr + 256 ≤ 2 ^ 64) (ho : o < 256) :
    hdr_addr hdr o = hdr + o := by
  unfold hdr_addr UINTPTR_BITS
  exact Nat.mod_eq_of_lt (by omega)

/-- C4: for every width `w` in {8, 16, 32}, every offset `o` with
`o + w/8 ≤ 256`, every memory and every value `x`, reading at `(o, w)` after
`PCI_HDR_WRITE(hdr, o, x, w)` returns `x mod 2^w`, hence `x` when `x` fits in
`w` bits. -/
theorem hdr_write_read_roundtrip (m : Mem) (hdr o x w : Nat)
    (hw : w = 8 ∨ w = 16 ∨ w = 32) (ho : o + w / 8 ≤ PCI_CFG_SPACE_SIZE) :
    PCI_HDR_READ (PCI_HDR_WRITE m hdr o x w) hdr o w = x % 2 ^ w ∧
    (x < 2 ^ w → PCI_HDR_READ (PCI_HDR_WRITE m hdr o x w) hdr o w = x) := by
  have h := hdr_read_write_same m hdr o x w hw
  have _ := ho
  exact ⟨h, fun hx => h.trans (Nat.mod_eq_of_lt hx)⟩

/-- Witness of C4: a 16-bit write of `0x12345` at offset 254 of a zeroed
memory reads back `0x2345`. -/
theorem hdr_write_read_roundtrip_witness :
    PCI_HDR_READ (PCI_HDR_WRITE (fun _ => 0) 0x1000 254 0x12345 16) 0x1000 254 16 = 0x2345 :=
  (hdr_write_read_roundtrip (fun _ => 0) 0x1000 254 0x12345 16 (by decide) (by decide)).1

theorem store_le_first (n : Nat) (m : Mem) (addr v : Nat) :
    (store_le m addr v (n + 1) addr).val = v % 256 := by
  unfold store_le
  rw [store_le_outside n _ _ _ _ (Or.inl (Nat.lt_succ_self addr))]
  simp

theorem width_bytes_pos (w : Nat) (hw : w = 8 ∨ w = 16 ∨ w = 32) :
    ∃ n, w / 8 = n + 1 ∧ n < 4 ∧ 2 ^ w = 256 * 256 ^ n := by
  rcases hw with h | h | h <;> subst h
  · exact ⟨0, by norm_num⟩
  · exact ⟨1, by norm_num⟩
  · exact ⟨3, by norm_num⟩

/-- Counterexample to C5 as stated: with `hdr = 0x1000`, the 32-bit write at
offset 254 is not contained in the store, yet it changes the bytes at
offsets 254 and 255 inside the store and the bytes at `hdr + 256` and
`hdr + 257` beyond it; and an 8-bit read at offset 256 returns the byte that
lies just past the store. -/
theorem hdr_access_out_of_range_counterexample :
    ¬ (254 + 32 / 8 ≤ PCI_CFG_SPACE_SIZE) ∧
    ¬ in_store 0x1000 0x1100 ∧ ¬ in_store 0x1000 0x1101 ∧
    (PCI_HDR_WRITE (fun _ => 0) 0x1000 254 0xAABBCCDD 32 0x10FE).val = 0xDD ∧
    (PCI_HDR_WRITE (fun _ => 0) 0x1000 254 0xAABBCCDD 32 0x10FF).val = 0xCC ∧
    (PCI_HDR_WRITE (fun _ => 0) 0x1000 254 0xAABBCCDD 32 0x1100).val = 0xBB ∧
    (PCI_HDR_WRITE (fun _ => 0) 0x1000 254 0xAABBCCDD 32 0x1101).val = 0xAA ∧
    PCI_HDR_READ (fun a => if a = 0x1100 then 0x5A else 0) 0x1000 256 8 = 0x5A := by
  decide

/-- C5, amended: the macros perform no bounds check. For every width `w` in
{8, 16, 32} and every offset `o`, `PCI_HDR_WRITE` stores the low byte of the
value at address `hdr + o` (modulo the pointer width) and changes no byte
outside the `w/8` bytes starting there, and `PCI_HDR_READ` depends on those
bytes only. Hence an access with `o + w/8 ≤ 256` neither writes nor reads a
byte outside the 256-byte store that `hdr` points at. -/
theorem hdr_access_locality (m : Mem) (hdr o x w : Nat)
    (hw : w = 8 ∨ w = 16 ∨ w = 32)
    (hh : hdr + PCI_CFG_SPACE_SIZE ≤ 2 ^ UINTPTR_BITS) :
    (PCI_HDR_WRITE m hdr o x w (hdr_addr hdr o)).val = x % 256 ∧
    (∀ a, a < hdr_addr hdr o ∨ hdr_addr hdr o + w / 8 ≤ a →
      PCI_HDR_WRITE m hdr o x w a = m a) ∧
    (∀ m2 : Mem, (∀ a, hdr_addr hdr o ≤ a → a < hdr_addr hdr o + w / 8 → m2 a = m a) →
      PCI_HDR_READ m2 hdr o w = PCI_HDR_READ m hdr o w) ∧
    (o + w / 8 ≤ PCI_CFG_SPACE_SIZE →
      (∀ a, ¬ in_store hdr a → PCI_HDR_WRITE m hdr o x w a = m a) ∧
      (∀ m2 : Mem, (∀ a, in_store hdr a → m2 a = m a) →
        PCI_HDR_READ m2 hdr o w = PCI_HDR_READ m hdr o w)) := by
  obtain ⟨n, hn, hn4, hpow⟩ := width_bytes_pos w hw
  have hwr : ∀ a, a < hdr_addr hdr o ∨ hdr_addr hdr o + w / 8 ≤ a →
      PCI_HDR_WRITE m hdr o x w a = m a :=
    fun a ha => store_le_outside (w / 8) m _ _ a ha
  have hrd : ∀ m2 : Mem,
      (∀ a, hdr_addr hdr o ≤ a → a < hdr_addr hdr o + w / 8 → m2 a = m a) →
      PCI_HDR_READ m2 hdr o w = PCI_HDR_READ m hdr o w :=
    fun m2 h => load_le_congr (w / 8) m m2 _ h
  refine ⟨?_, hwr, hrd, ?_⟩
  · unfold PCI_HDR_WRITE
    rw [hn, store_le_first, hpow, Nat.mod_mul_right_mod]
  · intro ho
    unfold PCI_CFG_SPACE_SIZE at ho hh
    unfold UINTPTR_BITS at hh
    have haddr : hdr_addr hdr o = hdr + o := hdr_addr_in_range hdr o hh (by omega)
    constructor
    · intro a ha
      apply hwr
      unfold in_store PCI_CFG_SPACE_SIZE at ha
      omega
    · intro m2 h
      apply hrd
      intro a h1 h2
      apply h
      unfold in_store PCI_CFG_SPACE_SIZE
      omega

/-- Witness of the amended C5: a 32-bit write at offset 252, the last
in-range slot, of a store at `0x1000`. -/
theorem hdr_access_locality_witness :
    (PCI_HDR_WRITE (fun _ => 0) 0x1000 252 0xAABBCCDD 32 (hdr_addr 0x1000 252)).val = 0xDD ∧
    (∀ a, ¬ in_store 0x1000 a → PCI_HDR_WRITE (fun _ => 0) 0x1000 252 0xAABBCCDD 32 a = 0) :=
  ⟨(hdr_access_locality (fun _ => 0) 0x1000 252 0xAABBCCDD 32 (by decide) (by decide)).1,
    ((hdr_access_locality (fun _ => 0) 0x1000 252 0xAABBCCDD 32 (by decide) (by decide)).2.2.2
      (by decide)).1⟩

/-! ## Layout of the BAR slots -/

theorem bar_offset_eq (bar : Nat) : PCI_BAR_OFFSET bar = 16 + 4 * bar := by
  unfold PCI_BAR_OFFSET PCI_BASE_ADDRESS_0
  rw [Nat.shiftLeft_eq]
  omega

/-- C6: for every BAR index in [0, 5], `PCI_BAR_OFFSET(bar)` is
`PCI_BASE_ADDRESS_0 + 4*bar = 0x10 + 4*bar`, a multiple of 4, one of
0x10, 0x14, 0x18, 0x1C, 0x20, 0x24, and its 4-byte slot lies in
`[0x10, 0x28)`, inside the 256-byte configuration space. -/
theorem bar_offset_layout (bar : Nat) (hb : bar ≤ 5) :
    PCI_BAR_OFFSET bar = PCI_BASE_ADDRESS_0 + 4 * bar ∧
    PCI_BAR_OFFSET bar = 0x10 + 4 * bar ∧
    PCI_BAR_OFFSET bar % 4 = 0 ∧
    PCI_BAR_OFFSET bar ∈ [0x10, 0x14, 0x18, 0x1C, 0x20, 0x24] ∧
    0x10 ≤ PCI_BAR_OFFSET bar ∧ PCI_BAR_OFFSET bar + 4 ≤ 0x28 ∧
    PCI_BAR_OFFSET bar + 4 ≤ PCI_CFG_SPACE_SIZE := by
  interval_cases bar <;> decide

/-- Witness of C6 at the last BAR: slot `[0x24, 0x28)`. -/
theorem bar_offset_layout_witness :
    PCI_BAR_OFFSET 5 = 0x24 ∧ PCI_BAR_OFFSET 5 + 4 ≤ 0x28 :=
  ⟨(bar_offset_layout 5 (by decide)).2.1, (bar_offset_layout 5 (by decide)).2.2.2.2.2.1⟩

theorem bar_slots_apart (hdr a b : Nat) (ha : a ≤ 5) (hb : b ≤ 5) (hab : a ≠ b) :
    hdr_addr hdr (PCI_BAR_OFFSET b) + 4 ≤ hdr_addr hdr (PCI_BAR_OFFSET a) ∨
    hdr_addr hdr (PCI_BAR_OFFSET a) + 4 ≤ hdr_addr hdr (PCI_BAR_OFFSET b) := by
  rw [bar_offset_eq a, bar_offset_eq b]
  unfold hdr_addr UINTPTR_BITS
  norm_num
  omega

theorem bar_write_other_slot (m : Mem) (hdr a b x : Nat) (ha : a ≤ 5) (hb : b ≤ 5)
    (hab : a ≠ b) :
    PCI_HDR_READ (PCI_HDR_WRITE m hdr (PCI_BAR_OFFSET a) x 32) hdr (PCI_BAR_OFFSET b) 32 =
      PCI_HDR_READ m hdr (PCI_BAR_OFFSET b) 32 :=
  load_le_store_le_disjoint 4 4 m _ _ _ (bar_slots_apart hdr a b ha hb hab)

/-- C10: for two distinct BAR indices `a`, `b` in [0, 5], the slot of
`a + 1` starts 4 bytes after the slot of `a` (for `a ≤ 4`), the two 4-byte
slots do not overlap, and a 32-bit `PCI_HDR_WRITE` to the register of `a`
does not change the value read from the register of `b`. -/
theorem bar_slots_adjacent_disjoint (a b : Nat) (ha : a ≤ 5) (hb : b ≤ 5) (hab : a ≠ b) :
    (a ≤ 4 → PCI_BAR_OFFSET (a + 1) = PCI_BAR_OFFSET a + 4) ∧
    (PCI_BAR_OFFSET a + 4 ≤ PCI_BAR_OFFSET b ∨ PCI_BAR_OFFSET b + 4 ≤ PCI_BAR_OFFSET a) ∧
    (∀ (m : Mem) (hdr x : Nat),
      PCI_HDR_READ (PCI_HDR_WRITE m hdr (PCI_BAR_OFFSET a) x 32) hdr (PCI_BAR_OFFSET b) 32 =
        PCI_HDR_READ m hdr (PCI_BAR_OFFSET b) 32) := by
  refine ⟨fun _ => ?_, ?_, fun m hdr x => bar_write_other_slot m hdr a b x ha hb hab⟩
  · rw [bar_offset_eq, bar_offset_eq]
    omega
  · rw [bar_offset_eq, bar_offset_eq]
    omega

/-- Witness of C10 for the pair of slots 0 and 1. -/
theorem bar_slots_adjacent_disjoint_witness :
    PCI_BAR_OFFSET (0 + 1) = PCI_BAR_OFFSET 0 + 4 ∧
    (∀ (m : Mem) (hdr x : Nat),
      PCI_HDR_READ (PCI_HDR_WRITE m hdr (PCI_BAR_OFFSET 0) x 32) hdr (PCI_BAR_OFFSET 1) 32 =
        PCI_HDR_READ m hdr (PCI_BAR_OFFSET 1) 32) :=
  ⟨(bar_slots_adjacent_disjoint 0 1 (by decide) (by decide) (by decide)).1 (by decide),
    (bar_slots_adjacent_disjoint 0 1 (by decide) (by decide) (by decide)).2.2⟩

/-! ## Status register -/

theorem not16_lt (x : Nat) : not16 x < 2 ^ 16 :=
  Nat.xor_lt_two_pow (by norm_num) (Nat.mod_lt _ (by norm_num))

theorem testBit_not16 (x i : Nat) (hi : i < 16) : (not16 x).testBit i = !x.testBit i := by
  unfold not16
  rw [Nat.testBit_xor, Nat.testBit_two_pow_sub_one, Nat.testBit_mod_two_pow]
  simp [hi]

theorem status_reg_set_status (d : pci_dev) (s : Nat) :
    status_reg (pci_set_status d s) = status_reg d &&& not16 s := by
  unfold status_reg pci_set_status
  simp only []
  rw [hdr_read_write_same _ _ _ _ _ (Or.inr (Or.inl rfl))]
  exact Nat.mod_eq_of_lt (Nat.and_lt_two_pow _ (not16_lt s))

/-- C7: for every device and every 16-bit value `s`, `pci_set_status(dev, s)`
leaves the Status register (offset `PCI_STATUS = 0x06`) equal to
`old & ~s`: each bit that is 1 in `s` is cleared and every other status bit
keeps its value. -/
theorem set_status_write_one_to_clear (d : pci_dev) (s : Nat) (hs : s < 2 ^ 16) :
    PCI_STATUS = 0x06 ∧
    status_reg (pci_set_status d s) = status_reg d &&& not16 s ∧
    (∀ i, i < 16 → s.testBit i = true → (status_reg (pci_set_status d s)).testBit i = false) ∧
    (∀ i, i < 16 → s.testBit i = false →
      (status_reg (pci_set_status d s)).testBit i = (status_reg d).testBit i) := by
  have _ := hs
  refine ⟨rfl, status_reg_set_status d s, ?_, ?_⟩
  · intro i hi hb
    rw [status_reg_set_status, Nat.testBit_and, testBit_not16 _ _ hi, hb]
    simp
  · intro i hi hb
    rw [status_reg_set_status, Nat.testBit_and, testBit_not16 _ _ hi, hb]
    simp

/-- Witness of C7: writing `0x0100` clears bit 8 of a Status register that
holds `0x0190` and keeps the other bits; on a register that holds `0x0090`
bit 8 stays clear. -/
theorem set_status_write_one_to_clear_witness :
    status_reg (dev_with_status 0x0190) = 0x0190 ∧
    status_reg (pci_set_status (dev_with_status 0x0190) 0x0100) = 0x0090 ∧
    status_reg (pci_set_status (dev_with_status 0x0090) 0x0100) = 0x0090 :=
  ⟨by decide,
    (set_status_write_one_to_clear (dev_with_status 0x0190) 0x0100 (by decide)).2.1.trans
      (by decide),
    (set_status_write_one_to_clear (dev_with_status 0x0090) 0x0100 (by decide)).2.1.trans
      (by decide)⟩

/-! ## BAR configuration and the sizing probe -/

theorem bar_reg_set_bar_same (d : pci_dev) (bar sz L cb : Nat) :
    bar_reg (pci_set_bar d bar sz L cb) bar = L % 2 ^ 32 := by
  unfold bar_reg pci_set_bar
  exact hdr_read_write_same _ _ _ _ _ (Or.inr (Or.inr rfl))

theorem bar_reg_set_bar_other (d : pci_dev) (bar b sz L cb : Nat) (hbar : bar ≤ 5)
    (hb : b ≤ 5) (hne : b ≠ bar) :
    bar_reg (pci_set_bar d bar sz L cb) b = bar_reg d b := by
  unfold bar_reg pci_set_bar
  exact bar_write_other_slot _ _ bar b _ hbar hb (Ne.symm hne)

theorem io_bit_iff (L : Nat) :
    decide (L &&& PCI_BASE_ADDRESS_SPACE_IO ≠ 0) = true ↔ L.testBit 0 = true := by
  have h : L &&& PCI_BASE_ADDRESS_SPACE_IO = L % 2 := and_mask_eq_mod L 1
  rw [h, Nat.testBit_zero]
  simp

/-- C9: for every device, every `bar` in [0, 5], every power-of-two
`bar_size` and every layout bitmask `L`, after `pci_set_bar` the BAR register
at `PCI_BAR_OFFSET(bar)` holds exactly `L`, `bar_size[bar] = bar_size`,
`bar_is_io_space[bar]` is true iff bit 0 of `L` is set, `bar_active[bar]` is
false and the two buses are as before (no bus mapping is activated), and the
BAR registers, sizes and flags of every other index are unchanged. -/
theorem set_bar_postcondition (d : pci_dev) (bar sz L cb : Nat) (hbar : bar ≤ 5)
    (hsz : sz < 2 ^ 32) (hp : ∃ k, sz = 2 ^ k) (hL : L < 2 ^ 32) :
    bar_reg (pci_set_bar d bar sz L cb) bar = L ∧
    (pci_set_bar d bar sz L cb).bar_size bar = sz ∧
    ((pci_set_bar d bar sz L cb).bar_is_io_space bar = true ↔ L.testBit 0 = true) ∧
    (pci_set_bar d bar sz L cb).bar_active bar = false ∧
    (pci_set_bar d bar sz L cb).io_bus = d.io_bus ∧
    (pci_set_bar d bar sz L cb).mmio_bus = d.mmio_bus ∧
    (∀ b, b ≤ 5 → b ≠ bar →
      bar_reg (pci_set_bar d bar sz L cb) b = bar_reg d b ∧
      (pci_set_bar d bar sz L cb).bar_size b = d.bar_size b ∧
      (pci_set_bar d bar sz L cb).bar_is_io_space b = d.bar_is_io_space b ∧
      (pci_set_bar d bar sz L cb).bar_active b = d.bar_active b) := by
  have _ := hp
  refine ⟨?_, ?_, ?_, ?_, rfl, rfl, ?_⟩
  · rw [bar_reg_set_bar_same, Nat.mod_eq_of_lt hL]
  · simp only [pci_set_bar, Function.update_same]
    exact Nat.mod_eq_of_lt hsz
  · simp only [pci_set_bar, Function.update_same]
    exact io_bit_iff L
  · simp only [pci_set_bar, Function.update_same]
  · intro b hb hne
    refine ⟨bar_reg_set_bar_other d bar b sz L cb hbar hb hne, ?_, ?_, ?_⟩
    · simp [pci_set_bar, Function.update_noteq hne]
    · simp [pci_set_bar, Function.update_noteq hne]
    · simp [pci_set_bar, Function.update_noteq hne]

/-- Witness of C9: BAR 2 of the blank device configured as a 4 KiB
prefetchable memory region. -/
theorem set_bar_postcondition_witness :
    bar_reg (pci_set_bar blank_dev 2 0x1000 0x8 7) 2 = 0x8 ∧
    (pci_set_bar blank_dev 2 0x1000 0x8 7).bar_size 2 = 0x1000 ∧
    (pci_set_bar blank_dev 2 0x1000 0x8 7).bar_active 2 = false :=
  ⟨(set_bar_postcondition blank_dev 2 0x1000 0x8 7 (by decide) (by decide) ⟨12, by decide⟩
      (by decide)).1,
    (set_bar_postcondition blank_dev 2 0x1000 0x8 7 (by decide) (by decide) ⟨12, by decide⟩
      (by decide)).2.1,
    (set_bar_postcondition blank_dev 2 0x1000 0x8 7 (by decide) (by decide) ⟨12, by decide⟩
      (by decide)).2.2.2.1⟩

theorem hdr_addr_apart (hdr o n o2 n2 : Nat) (ho : o + n ≤ 256) (ho2 : o2 + n2 ≤ 256)
    (hd : o2 + n2 ≤ o ∨ o + n ≤ o2) :
    hdr_addr hdr o2 + n2 ≤ hdr_addr hdr o ∨ hdr_addr hdr o + n ≤ hdr_addr hdr o2 := by
  unfold hdr_addr UINTPTR_BITS
  norm_num
  omega

/-- C11: for every width `w` in {8, 16, 32}, every offset `o` with
`o + w/8 ≤ 256` and every value `x`, `PCI_HDR_WRITE(hdr, o, x, w)` leaves
every memory byte outside the `w/8` bytes at `hdr + o` unchanged, in
particular every configuration-space byte whose index is outside
`[o, o + w/8)`; so a `PCI_HDR_READ` of any width whose byte range lies in the
configuration space and is disjoint from `[o, o + w/8)` returns the same
value before and after the write. -/
theorem hdr_write_frame (m : Mem) (hdr o x w : Nat) (hw : w = 8 ∨ w = 16 ∨ w = 32)
    (ho : o + w / 8 ≤ PCI_CFG_SPACE_SIZE) :
    (∀ a, a < hdr_addr hdr o ∨ hdr_addr hdr o + w / 8 ≤ a →
      PCI_HDR_WRITE m hdr o x w a = m a) ∧
    (∀ i, i < PCI_CFG_SPACE_SIZE → i < o ∨ o + w / 8 ≤ i →
      PCI_HDR_WRITE m hdr o x w (hdr_addr hdr i) = m (hdr_addr hdr i)) ∧
    (∀ o2 w2, w2 = 8 ∨ w2 = 16 ∨ w2 = 32 → o2 + w2 / 8 ≤ PCI_CFG_SPACE_SIZE →
      o2 + w2 / 8 ≤ o ∨ o + w / 8 ≤ o2 →
      PCI_HDR_READ (PCI_HDR_WRITE m hdr o x w) hdr o2 w2 = PCI_HDR_READ m hdr o2 w2) := by
  obtain ⟨n, hn, -, -⟩ := width_bytes_pos w hw
  unfold PCI_CFG_SPACE_SIZE at ho ⊢
  have hout : ∀ a, a < hdr_addr hdr o ∨ hdr_addr hdr o + w / 8 ≤ a →
      PCI_HDR_WRITE m hdr o x w a = m a :=
    fun a ha => store_le_outside (w / 8) m _ _ a ha
  refine ⟨hout, ?_, ?_⟩
  · intro i hi hd
    apply hout
    have h := hdr_addr_apart hdr o (w / 8) i 1 ho (by omega) (by omega)
    omega
  · intro o2 w2 hw2 ho2 hd
    obtain ⟨n2, hn2, -, -⟩ := width_bytes_pos w2 hw2
    have h := hdr_addr_apart hdr o (w / 8) o2 (w2 / 8) ho ho2 hd
    exact load_le_store_le_disjoint (w / 8) (w2 / 8) m _ _ _ (by omega)

/-- Witness of C11: a 16-bit write at offset 6 of a store at `0x1000` leaves
the byte at index 8 and the 32-bit register at offset 0x10 as they were. -/
theorem hdr_write_frame_witness :
    PCI_HDR_WRITE (fun _ => 0) 0x1000 6 0xBEEF 16 (hdr_addr 0x1000 8) = 0 ∧
    PCI_HDR_READ (PCI_HDR_WRITE (fun _ => 0) 0x1000 6 0xBEEF 16) 0x1000 0x10 32 =
      PCI_HDR_READ (fun _ => 0) 0x1000 0x10 32 :=
  ⟨(hdr_write_frame (fun _ => 0) 0x1000 6 0xBEEF 16 (by decide) (by decide)).2.1 8
      (by decide) (by decide),
    (hdr_write_frame (fun _ => 0) 0x1000 6 0xBEEF 16 (by decide) (by decide)).2.2 0x10 32
      (by decide) (by decide) (by decide)⟩

end KvmHost
